import Mathlib

/-!
Verification of the unipdf writer / content-stream core.

Shallow embedding of the Go sources (`model` writer file and the
`contentstream` files): PDF objects become an inductive type, the
writer's mutable state becomes an explicit state record, unbounded Go
loops take a fuel parameter, and fallible code returns `Except`.
Runtime object identity (Go pointer equality between `PdfObject`
interface values) is modelled by the arena ids carried by the
`IndirectObject` and `Stream` variants; those are the only variants the
writer ever registers in its graph.
-/

/-- The PDF object variants visible to the writer.  `ind id` and
`stream id` are the addressable objects: `id` is an arena handle playing
the role of the Go pointer, and a heap function `Nat → PObj` supplies the
contained object (`PdfIndirectObject.PdfObject`, respectively the
stream's dictionary). -/
inductive PObj where
  | null
  | bool (b : Bool)
  | int (n : Int)
  | real (r : Int)
  | str (s : String)
  | name (s : String)
  | array (xs : List PObj)
  | dict (entries : List (String × PObj))
  | ref (n : Nat)
  | ind (id : Nat)
  | stream (id : Nat)

/-- A PDF dictionary, as an ordered association list (the Go code uses a
map; list order stands in for Go's iteration order). -/
abbrev PDict := List (String × PObj)

/-- Go pointer identity between two objects: only indirect objects and
streams are addressable in the writer's graph, and they are the same
object exactly when they are the same arena handle. -/
def PObj.sameObj : PObj → PObj → Bool
  | .ind i, .ind j => i == j
  | .stream i, .stream j => i == j
  | _, _ => false

/-- Is the object an indirect object or a stream? -/
def PObj.isIndOrStream : PObj → Bool
  | .ind _ => true
  | .stream _ => true
  | _ => false

/-- Is the object a dictionary? -/
def PObj.isDict : PObj → Bool
  | .dict _ => true
  | _ => false

/-- Is the object an indirect object? -/
def PObj.isInd : PObj → Bool
  | .ind _ => true
  | _ => false

/-- `PdfWriter.hasObject`: linear scan of the object list comparing by
identity. -/
def graphMem (g : List PObj) (o : PObj) : Bool :=
  g.any (fun x => PObj.sameObj x o)

/-- `PdfWriter.addObject`: append the object unless already present. -/
def addObject (g : List PObj) (o : PObj) : List PObj :=
  if graphMem g o then g else g ++ [o]

/-- Dictionary lookup (`(*dict)[key]`). -/
def lookupD (d : PDict) (k : String) : Option PObj :=
  match d with
  | [] => none
  | (k', v) :: rest => if k' = k then some v else lookupD rest k

/-- Dictionary update (`(*dict)[key] = v`): replace the first binding or
append. -/
def setD (d : PDict) (k : String) (v : PObj) : PDict :=
  match d with
  | [] => [(k, v)]
  | (k', v') :: rest => if k' = k then (k, v) :: rest else (k', v') :: setD rest k v

/-- Writer state touched by `addObjects`: the ordered object graph and the
pending-reference map (referenced object paired with the dictionary that
referenced it). -/
structure WState where
  objects : List PObj
  pending : List (PObj × PDict)

/-- Work items for the `addObjects` traversal: a single object, the
elements of an array, or the remaining entries of a dictionary (keeping
the whole dictionary for the pending-reference record). -/
inductive Job where
  | one (o : PObj)
  | arr (xs : List PObj)
  | entries (d : PDict) (rest : PDict)

/-- The `Parent`-key branch of the dictionary loop in `addObjects`: a
null parent is skipped; otherwise a parent absent from the graph is
recorded in the pending map, and a parent that is a bare reference is the
hard `UnresolvedReference`-style error. -/
def parentStep (st : WState) (d : PDict) (v : PObj) : Except String WState :=
  match v with
  | .null => .ok st
  | _ =>
    let st2 := if graphMem st.objects v then st
               else { st with pending := st.pending ++ [(v, d)] }
    match v with
    | .ref _ => .error "Parent is a reference object - Cannot be in writer (needs to be resolved)"
    | _ => .ok st2

/-- `PdfWriter.addObjects`, the recursive graph traversal, written over a
fuel parameter (the Go code has no cycle guard and can loop forever; with
enough fuel the model agrees with every terminating Go run).  An indirect
object or stream is registered and its body traversed; a dictionary is
traversed entry by entry except the `Parent` key, which goes through
`parentStep`; arrays are traversed element-wise; a bare reference
anywhere else is a hard error; all other variants are leaves. -/
def run (heap : Nat → PObj) : Nat → WState → Job → Except String WState
  | 0, _, _ => .error "fuel exhausted"
  | fuel + 1, st, .one o =>
    match o with
    | .ind id =>
      if graphMem st.objects (.ind id) then .ok st
      else run heap fuel { st with objects := st.objects ++ [.ind id] } (.one (heap id))
    | .stream id =>
      if graphMem st.objects (.stream id) then .ok st
      else run heap fuel { st with objects := st.objects ++ [.stream id] } (.one (heap id))
    | .dict d => run heap fuel st (.entries d d)
    | .array xs => run heap fuel st (.arr xs)
    | .ref _ => .error "Reference not allowed"
    | _ => .ok st
  | _ + 1, st, .arr [] => .ok st
  | fuel + 1, st, .arr (x :: xs) =>
    match run heap fuel st (.one x) with
    | .error e => .error e
    | .ok st2 => run heap fuel st2 (.arr xs)
  | _ + 1, st, .entries _ [] => .ok st
  | fuel + 1, st, .entries d ((k, v) :: rest) =>
    if k = "Parent" then
      match parentStep st d v with
      | .error e => .error e
      | .ok st2 => run heap fuel st2 (.entries d rest)
    else
      match run heap fuel st (.one v) with
      | .error e => .error e
      | .ok st2 => run heap fuel st2 (.entries d rest)

/-- Entry point of the traversal on one object. -/
def addObjects (heap : Nat → PObj) (fuel : Nat) (st : WState) (o : PObj) : Except String WState :=
  run heap fuel st (.one o)

/-- The `Write`-time pending check, per dictionary: replace the first
entry whose value is the never-registered pending object with null and
stop (`break` in the Go loop). -/
def nullifyFirstMatch (target : PObj) : PDict → PDict
  | [] => []
  | (k, v) :: rest =>
    if PObj.sameObj v target then (k, .null) :: rest
    else (k, v) :: nullifyFirstMatch target rest

/-- One pending-map entry at `Write` time: if the referenced object made
it into the graph the dictionary is left alone, otherwise the dangling
entry is nulled out.  Note the function is total: this path only logs,
it never raises. -/
def resolvePendingEntry (objects : List PObj) (p : PObj × PDict) : PDict :=
  if graphMem objects p.1 then p.2 else nullifyFirstMatch p.1 p.2

/-- The whole pending loop of `Write`. -/
def resolvePending (objects : List PObj) (pending : List (PObj × PDict)) : List PDict :=
  pending.map (resolvePendingEntry objects)

/-- The four inheritable page-tree attributes, in the order the Go slice
lists them. -/
def inheritedFields : List String := ["Resources", "MediaBox", "CropBox", "Rotate"]

/-- One ancestor step of the `AddPage` inheritance copy: for a single
field, keep the page's own value if present, otherwise copy the parent's
value if the parent has one. -/
def copyField (parentd : PDict) (pd : PDict) (f : String) : PDict :=
  match lookupD pd f with
  | some _ => pd
  | none =>
    match lookupD parentd f with
    | some v => pd ++ [(f, v)]
    | none => pd

/-- Copy all four inheritable fields from one ancestor dictionary. -/
def copyInherited (pd parentd : PDict) : PDict :=
  inheritedFields.foldl (copyField parentd) pd

/-- The `AddPage` ancestor walk (`for hasParent` loop): `parentEntry` is
the current value of the `Parent` key.  The loop runs only while that
value is an indirect object (anything else, including an absent key,
silently ends the walk); an indirect parent whose contained object is not
a dictionary is the `Invalid Parent object` error.  Fuel bounds the walk,
which the Go code does not (a `Parent` cycle loops forever). -/
def walkInherit (heap : Nat → PObj) : Nat → PDict → Option PObj → Except String PDict
  | fuel, pd, parentEntry =>
    match parentEntry with
    | some (.ind pid) =>
      match fuel, heap pid with
      | 0, _ => .error "fuel exhausted"
      | fuel + 1, .dict parentd =>
          walkInherit heap fuel (copyInherited pd parentd) (lookupD parentd "Parent")
      | _ + 1, _ => .error "Invalid Parent object"
    | _ => .ok pd

/-- `PdfWriter.AddPage`, restricted to its effect on the page dictionary:
the page must be an indirect object containing a dictionary whose `Type`
is the name `Page`; then the inheritance walk runs and finally the page's
`Parent` is rewritten to the writer's root pages object.  (Appending to
the root `Kids`, bumping `Count` and registering the page touch other
state and are modelled by `addObject`/`run`.) -/
def addPage (heap : Nat → PObj) (fuel : Nat) (pagesObj : PObj) (pageObj : PObj) :
    Except String PDict :=
  match pageObj with
  | .ind id =>
    match heap id with
    | .dict pd =>
      match lookupD pd "Type" with
      | some (.name t) =>
        if t = "Page" then
          (walkInherit heap fuel pd (lookupD pd "Parent")).map (fun pd' => setD pd' "Parent" pagesObj)
        else .error "Type != Page (Required)."
      | _ => .error "Page should have a Type key with a value of type name"
    | _ => .error "Page object should be a dictionary"
  | _ => .error "Page should be an indirect object"

/-- `PdfWriter.updateObjectNumbers`: walk the graph with the running
index, stamping `(idx+1, 0)` on every indirect object and stream and
leaving other objects untouched (`none`). -/
def updateObjectNumbers : List PObj → Nat → List (Option (Nat × Nat))
  | [], _ => []
  | o :: rest, idx =>
    (match o with
     | .ind _ => some (idx + 1, 0)
     | .stream _ => some (idx + 1, 0)
     | _ => none) :: updateObjectNumbers rest (idx + 1)

/-- One crypt filter configuration (`CryptFilter`). -/
structure CryptFilterCfg where
  cfm : String
  filterLength : Nat

/-- The `PdfCrypt` fields that `PdfWriter.Encrypt` sets. -/
structure PdfCryptCfg where
  P : Int
  V : Nat
  R : Nat
  keyLength : Nat
  encryptMetadata : Bool
  filters : List (String × CryptFilterCfg)

/-- `PdfWriter.Encrypt`'s crypter configuration: the fixed
V=2/R=3/128-bit standard handler with the single `Default` RC4 (`V2`)
crypt filter; `perms` is `options.Permissions.GetP()` when an options
struct was passed, `none` when `options == nil`. -/
def encryptConfig (perms : Option Int) : PdfCryptCfg :=
  { P := match perms with
         | none => -1
         | some p => p
  , V := 2
  , R := 3
  , keyLength := 128
  , encryptMetadata := true
  , filters := [("Default", { cfm := "V2", filterLength := 128 })] }

/-- The per-object encryption decision of the `Write` loop when a crypter
is active: every object is encrypted except the encryption dictionary's
own backing object (`obj != this.encryptObj`).  Each graph object is
paired with whether `PdfCrypt.Encrypt` runs on it. -/
def encryptStep (encObj : PObj) (objs : List PObj) : List (PObj × Bool) :=
  objs.map (fun o => (o, !(PObj.sameObj o encObj)))

/-- ASCII bytes of a string (all the writer's fixed syntax is ASCII). -/
def ascii (s : String) : List Nat :=
  s.toList.map Char.toNat

/-- The binary-marker comment line the writer emits after the version
line: the UTF-8 bytes of the Go literal, percent sign then four
high-bit characters then newline. -/
def binaryMarker : List Nat :=
  [0x25, 0xC3, 0xA2, 0xC3, 0xA3, 0xC3, 0x8F, 0xC3, 0x93, 0x0A]

/-- The file header `Write` emits before any object. -/
def pdfHeader (major minor : Nat) : List Nat :=
  ascii ("%PDF-" ++ Nat.repr major ++ "." ++ Nat.repr minor ++ "\n") ++ binaryMarker

/-- The object marker `N 0 obj` that opens every indirect-object and
stream block. -/
def objMarker (num : Nat) : List Nat :=
  ascii (Nat.repr num ++ " 0 obj")

/-- `PdfWriter.writeObject`: the byte block for one graph object.  `ser`
abstracts `DefaultWriteString` of the contained object (an external
collaborator), `raw` gives a stream's raw bytes by arena id. -/
def objBlock (ser : PObj → List Nat) (raw : Nat → List Nat) (num : Nat) (o : PObj) : List Nat :=
  match o with
  | .ind _ => objMarker num ++ ascii "\n" ++ ser o ++ ascii "\nendobj\n"
  | .stream sid =>
      objMarker num ++ ascii "\n" ++ ser o ++ ascii "\nstream\n" ++ raw sid
        ++ ascii "\nendstream\nendobj\n"
  | _ => ser o

/-- The object blocks of the `Write` loop, numbering from `num` (the
loop starts at 1). -/
def blocksFrom (ser : PObj → List Nat) (raw : Nat → List Nat) (num : Nat) :
    List PObj → List (List Nat)
  | [] => []
  | o :: rest => objBlock ser raw num o :: blocksFrom ser raw (num + 1) rest

/-- The offsets recorded by the `Write` loop: the byte position just
before each block, starting from `base` (the header length). -/
def offsetsFrom (base : Nat) : List (List Nat) → List Nat
  | [] => []
  | b :: bs => base :: offsetsFrom (base + b.length) bs

/-- Zero-padded decimal of width `w` (`%.10d` / `%.5d`). -/
def padZ (w : Nat) (n : Nat) : String :=
  String.mk (List.replicate (w - (Nat.repr n).length) '0') ++ Nat.repr n

/-- The xref free entry for object 0. -/
def xrefFreeLine : List Nat :=
  ascii (padZ 10 0 ++ " " ++ padZ 5 65535 ++ " f\r\n")

/-- One `n`-type xref entry: 10-digit offset, 5-digit generation 0. -/
def xrefEntryLine (off : Nat) : List Nat :=
  ascii (padZ 10 off ++ " " ++ padZ 5 0 ++ " n\r\n")

/-- The xref entry lines: the free entry for object 0 followed by one
`n` entry per recorded offset. -/
def xrefLines (offsets : List Nat) : List (List Nat) :=
  xrefFreeLine :: offsets.map xrefEntryLine

/-- The classic cross-reference table `Write` emits. -/
def xrefTable (objCount : Nat) (offsets : List Nat) : List Nat :=
  ascii "xref\r\n" ++ ascii (Nat.repr 0 ++ " " ++ Nat.repr (objCount + 1) ++ "\r\n")
    ++ (xrefLines offsets).flatten

/-- The trailer dictionary of an unencrypted document. -/
def trailerDict (root info : PObj) (objCount : Nat) : PDict :=
  [("Info", info), ("Root", root), ("Size", .int ((objCount : Int) + 1))]

/-- Everything `Write` emits after the object blocks: xref table,
trailer, startxref and the EOF marker.  `serD` abstracts
`DefaultWriteString` of the trailer dictionary, `xrefOff` is the byte
position the xref table begins at. -/
def pdfTail (serD : PDict → List Nat) (root info : PObj) (objCount : Nat)
    (offsets : List Nat) (xrefOff : Nat) : List Nat :=
  xrefTable objCount offsets
    ++ (ascii "trailer\n"
    ++ (serD (trailerDict root info objCount)
    ++ (ascii "\n"
    ++ (ascii ("startxref\n" ++ Nat.repr xrefOff ++ "\n")
    ++ ascii "%%EOF\n"))))

/-- `PdfWriter.Write` for an unencrypted document, as the emitted byte
stream: header, object blocks in graph order, then the xref table,
trailer, startxref and EOF. -/
def pdfWriteUnencrypted (ser : PObj → List Nat) (raw : Nat → List Nat)
    (serD : PDict → List Nat) (major minor : Nat) (root info : PObj)
    (objs : List PObj) : List Nat :=
  pdfHeader major minor
    ++ ((blocksFrom ser raw 1 objs).flatten
    ++ pdfTail serD root info objs.length
         (offsetsFrom (pdfHeader major minor).length (blocksFrom ser raw 1 objs))
         ((pdfHeader major minor).length + (blocksFrom ser raw 1 objs).flatten.length))

/-- Modelled from the spec: `IsWhiteSpace` lives in `pdf/core`, which is
not part of the excerpted sources; the PDF whitespace bytes are NUL, TAB,
LF, FF, CR and space. -/
def isWSb (b : Nat) : Bool :=
  b == 0 || b == 9 || b == 10 || b == 12 || b == 13 || b == 32

/-- The inline-image data scanner of `ParseInlineImage`, entered after
`ID` (and after the optional single whitespace skip): the four-state
search for the `<ws>EI<ws>` terminator, with `skip` the candidate
terminator buffer (`skipBytes`) and `out` the payload accumulated so far
(`im.stream`).  Byte 69 is `E`, byte 73 is `I`.  On success it returns
the payload together with the unread remainder of the input; end of
input before a terminator is the error (the propagated read error). -/
def eiScan : List Nat → Nat → List Nat → List Nat → Except Unit (List Nat × List Nat)
  | [], _, _, _ => .error ()
  | c :: rest, state, skip, out =>
    if state == 0 then
      if isWSb c then eiScan rest 1 [c] out
      else eiScan rest 0 skip (out ++ [c])
    else if state == 1 then
      if c == 69 then eiScan rest 2 (skip ++ [c]) out
      else if isWSb c then eiScan rest 1 (skip ++ [c]) (out ++ (skip ++ [c]))
      else eiScan rest 0 (skip ++ [c]) (out ++ (skip ++ [c]))
    else if state == 2 then
      if c == 73 then eiScan rest 3 (skip ++ [c]) out
      else eiScan rest 0 (skip ++ [c]) (out ++ (skip ++ [c]))
    else
      if isWSb c then .ok (out, rest)
      else eiScan rest 0 (skip ++ [c]) (out ++ (skip ++ [c]))

/-- Does the terminator pattern `<ws>EI<ws>` occur in `l` at index `i`? -/
def isEITermAt (l : List Nat) (i : Nat) : Bool :=
  decide (i + 3 < l.length) && isWSb (l.getD i 0) && (l.getD (i + 1) 0 == 69)
    && (l.getD (i + 2) 0 == 73) && isWSb (l.getD (i + 3) 0)

/-- A content-stream operation: operator token plus its preceding
operands (`ContentStreamOperation`). -/
structure CSOp where
  params : List PObj
  operand : String

/-- `ContentStreamParser.ExtractText`, as the fold over the parsed
operation list: `BT`/`ET` toggle the in-text flag, `Td`/`TD`/`T*` append
a newline, and inside a text object `Tj` appends its string operand while
`TJ` appends every string element of its array operand (other elements
are skipped). -/
def extractTextOps : List CSOp → Bool → String → Except String String
  | [], _, txt => .ok txt
  | op :: rest, inText, txt =>
    let inText2 := if op.operand == "BT" then true
                   else if op.operand == "ET" then false
                   else inText
    let txt2 := if op.operand == "Td" || op.operand == "TD" || op.operand == "T*"
                then txt ++ "\n" else txt
    if inText2 && op.operand == "TJ" then
      match op.params with
      | [] => extractTextOps rest inText2 txt2
      | p :: _ =>
        match p with
        | .array xs =>
            extractTextOps rest inText2
              (xs.foldl (fun a o => match o with
                                    | .str s => a ++ s
                                    | _ => a) txt2)
        | _ => .error "Invalid parameter type, no array"
    else if inText2 && op.operand == "Tj" then
      match op.params with
      | [] => extractTextOps rest inText2 txt2
      | p :: _ =>
        match p with
        | .str s => extractTextOps rest inText2 (txt2 ++ s)
        | _ => .error "Invalid parameter type, not string"
    else extractTextOps rest inText2 txt2

/-- Whitespace characters of a content stream. -/
def isWSc (ch : Char) : Bool :=
  ch == ' ' || ch == '\n' || ch == '\r' || ch == '\t'

/-- Modelled from the spec: part of the generic object-literal reader
(`parseObject` in `pdf/core`, not in the excerpted sources).  Reads a
parenthesized string body up to the closing parenthesis. -/
def readStringLit : List Char → (List Char × List Char)
  | [] => ([], [])
  | ch :: rest =>
    if ch == ')' then ([], rest)
    else
      let p := readStringLit rest
      (ch :: p.1, p.2)

/-- Modelled from the spec: reads a maximal digit run. -/
def readDigits : List Char → (List Char × List Char)
  | [] => ([], [])
  | ch :: rest =>
    if ch.isDigit then
      let p := readDigits rest
      (ch :: p.1, p.2)
    else ([], ch :: rest)

/-- Decimal value of a digit run. -/
def digitsToNat (ds : List Char) : Nat :=
  ds.foldl (fun a ch => a * 10 + (ch.toNat - 48)) 0

/-- Modelled from the spec: reads an operator token, up to whitespace or
a delimiter. -/
def readToken : List Char → (List Char × List Char)
  | [] => ([], [])
  | ch :: rest =>
    if isWSc ch || ch == '(' || ch == ')' || ch == '[' || ch == ']' then ([], ch :: rest)
    else
      let p := readToken rest
      (ch :: p.1, p.2)

/-- Modelled from the spec: a scalar operand literal — a parenthesized
string or a (possibly negative) integer. -/
def parseScalar : List Char → Option (PObj × List Char)
  | [] => none
  | ch :: rest =>
    if ch == '(' then
      let p := readStringLit rest
      some (.str (String.mk p.1), p.2)
    else if ch == '-' then
      let p := readDigits rest
      if p.1.isEmpty then none else some (.int (-(digitsToNat p.1 : Int)), p.2)
    else if ch.isDigit then
      let p := readDigits (ch :: rest)
      some (.int ((digitsToNat p.1 : Int)), p.2)
    else none

/-- Modelled from the spec: an array literal of scalar elements, after
the opening bracket. -/
def parseArrFlat : Nat → List Char → List PObj → Option (PObj × List Char)
  | 0, _, _ => none
  | fuel + 1, cs, acc =>
    match cs with
    | [] => none
    | ch :: rest =>
      if isWSc ch then parseArrFlat fuel rest acc
      else if ch == ']' then some (.array acc.reverse, rest)
      else
        match parseScalar (ch :: rest) with
        | some p => parseArrFlat fuel p.2 (p.1 :: acc)
        | none => none

/-- Modelled from the spec: `ContentStreamParser.Parse` is not in the
excerpted sources; a content stream is a sequence of operations, each an
operator token preceded by its operand objects.  This reader covers the
literals the examples need (strings, integers, flat arrays). -/
def tokenizeOps : Nat → List Char → List PObj → List CSOp → Option (List CSOp)
  | 0, _, _, _ => none
  | fuel + 1, cs, operands, acc =>
    match cs with
    | [] => some acc.reverse
    | ch :: rest =>
      if isWSc ch then tokenizeOps fuel rest operands acc
      else if ch == '(' || ch == '-' || ch.isDigit then
        match parseScalar (ch :: rest) with
        | some p => tokenizeOps fuel p.2 (operands ++ [p.1]) acc
        | none => none
      else if ch == '[' then
        match parseArrFlat fuel rest [] with
        | some p => tokenizeOps fuel p.2 (operands ++ [p.1]) acc
        | none => none
      else
        let t := readToken (ch :: rest)
        tokenizeOps fuel t.2 [] ({ params := operands, operand := String.mk t.1 } :: acc)

/-- `ExtractText` on a whole content stream: tokenize, then extract. -/
def extractTextFromStream (s : String) : Except String String :=
  match tokenizeOps (s.length + 1) s.toList [] [] with
  | some ops => extractTextOps ops false ""
  | none => .error "tokenize failed"

/-- Is an optional dictionary value an indirect object (`hasParent` of the
`AddPage` walk)? -/
def isIndOpt : Option PObj → Bool
  | some (.ind _) => true
  | _ => false

/-- `Option.orElse` specialized and strict, for stating lookup
precedences. -/
def orElseO {α : Type} (a b : Option α) : Option α :=
  match a with
  | some v => some v
  | none => b

/-- First value carried for a field along a chain of ancestor
dictionaries (nearest ancestor first). -/
def chainLookup (chain : List PDict) (f : String) : Option PObj :=
  match chain with
  | [] => none
  | d :: rest => orElseO (lookupD d f) (chainLookup rest f)

/-- The finite ancestor chains a heap realizes: the ancestor
dictionaries the `AddPage` walk visits, starting from the value of the
page's `Parent` entry.  The walk stops exactly when the current `Parent`
value is not an indirect object. -/
inductive ParentChain (heap : Nat → PObj) : Option PObj → List PDict → Prop where
  | stop (pe : Option PObj) (h : isIndOpt pe = false) : ParentChain heap pe []
  | step (pid : Nat) (d : PDict) (rest : List PDict) (hd : heap pid = .dict d)
      (hrest : ParentChain heap (lookupD d "Parent") rest) :
      ParentChain heap (some (.ind pid)) (d :: rest)

/-- No two graph entries are the same runtime object. -/
def graphNodup (g : List PObj) : Prop :=
  List.Pairwise (fun a b => PObj.sameObj a b = false) g

/-! Helper lemmas. -/

lemma orElseO_none_right {α : Type} (a : Option α) : orElseO a none = a := by
  cases a <;> rfl

lemma orElseO_assoc {α : Type} (a b c : Option α) :
    orElseO (orElseO a b) c = orElseO a (orElseO b c) := by
  cases a <;> rfl

lemma lookupD_append (a b : PDict) (f : String) :
    lookupD (a ++ b) f = orElseO (lookupD a f) (lookupD b f) := by
  induction a with
  | nil => simp [lookupD, orElseO]
  | cons kv rest ih =>
    obtain ⟨k, v⟩ := kv
    by_cases hk : k = f
    · simp [lookupD, hk, orElseO]
    · simp [lookupD, hk, ih]

lemma lookupD_copyField_ne (pdd pd : PDict) (g f : String) (h : g ≠ f) :
    lookupD (copyField pdd pd g) f = lookupD pd f := by
  cases hpd : lookupD pd g with
  | some v => simp [copyField, hpd]
  | none =>
    cases hpp : lookupD pdd g with
    | some v => simp [copyField, hpd, hpp, lookupD_append, lookupD, h, orElseO_none_right]
    | none => simp [copyField, hpd, hpp]

lemma lookupD_copyField_eq (pdd pd : PDict) (f : String) :
    lookupD (copyField pdd pd f) f = orElseO (lookupD pd f) (lookupD pdd f) := by
  cases hpd : lookupD pd f with
  | some v => simp [copyField, hpd, orElseO]
  | none =>
    cases hpp : lookupD pdd f with
    | some v => simp [copyField, hpd, hpp, lookupD_append, lookupD, orElseO]
    | none => simp [copyField, hpd, hpp, orElseO]

lemma lookupD_copyInherited (pd parentd : PDict) (f : String) (hf : f ∈ inheritedFields) :
    lookupD (copyInherited pd parentd) f = orElseO (lookupD pd f) (lookupD parentd f) := by
  have hunfold : copyInherited pd parentd
      = copyField parentd (copyField parentd (copyField parentd (copyField parentd pd
          "Resources") "MediaBox") "CropBox") "Rotate" := rfl
  fin_cases hf
  · rw [hunfold, lookupD_copyField_ne _ _ _ _ (by decide),
      lookupD_copyField_ne _ _ _ _ (by decide), lookupD_copyField_ne _ _ _ _ (by decide),
      lookupD_copyField_eq]
  · rw [hunfold, lookupD_copyField_ne _ _ _ _ (by decide),
      lookupD_copyField_ne _ _ _ _ (by decide), lookupD_copyField_eq,
      lookupD_copyField_ne _ _ _ _ (by decide)]
  · rw [hunfold, lookupD_copyField_ne _ _ _ _ (by decide), lookupD_copyField_eq,
      lookupD_copyField_ne _ _ _ _ (by decide), lookupD_copyField_ne _ _ _ _ (by decide)]
  · rw [hunfold, lookupD_copyField_eq, lookupD_copyField_ne _ _ _ _ (by decide),
      lookupD_copyField_ne _ _ _ _ (by decide), lookupD_copyField_ne _ _ _ _ (by decide)]

lemma lookupD_setD_ne (d : PDict) (k : String) (v : PObj) (f : String) (h : f ≠ k) :
    lookupD (setD d k v) f = lookupD d f := by
  induction d with
  | nil =>
    have : k ≠ f := fun hh => h hh.symm
    simp [setD, lookupD, this]
  | cons kv rest ih =>
    obtain ⟨k', v'⟩ := kv
    by_cases hk : k' = k
    · subst hk
      have : k' ≠ f := fun hh => h hh.symm
      simp [setD, lookupD, this]
    · by_cases hf : k' = f
      · simp [setD, lookupD, hk, hf, h]
      · simp [setD, lookupD, hk, hf, ih]

lemma walkInherit_chain (heap : Nat → PObj) (chain : List PDict) (pe : Option PObj)
    (hch : ParentChain heap pe chain) :
    ∀ pd : PDict, ∃ pd', walkInherit heap chain.length pd pe = .ok pd'
      ∧ ∀ f ∈ inheritedFields, lookupD pd' f = orElseO (lookupD pd f) (chainLookup chain f) := by
  induction hch with
  | stop pe h =>
    intro pd
    refine ⟨pd, ?_, ?_⟩
    · cases pe with
      | none => rfl
      | some o => cases o <;> first | rfl | simp [isIndOpt] at h
    · intro f _
      simp [chainLookup, orElseO_none_right]
  | step pid d rest hd hrest ih =>
    intro pd
    obtain ⟨pd', hok, hlook⟩ := ih (copyInherited pd d)
    refine ⟨pd', ?_, ?_⟩
    · show walkInherit heap (rest.length + 1) pd (some (.ind pid)) = .ok pd'
      rw [walkInherit.eq_2 _ _ _ _ _ hd]
      exact hok
    · intro f hf
      rw [hlook f hf, lookupD_copyInherited pd d f hf, chainLookup, orElseO_assoc]

/-- C3: for every page added via `AddPage` whose ancestor chain (followed
through `Parent` links) carries one of the inheritable attributes
Resources, MediaBox, CropBox, Rotate, the page's effective value after
`AddPage` equals its own value when the page already has the attribute,
and otherwise the value of the nearest ancestor carrying it. -/
theorem page_inheritance (heap : Nat → PObj) (id : Nat) (pd : PDict) (chain : List PDict)
    (pagesObj : PObj) (f : String) (hid : heap id = .dict pd)
    (hty : lookupD pd "Type" = some (.name "Page"))
    (hch : ParentChain heap (lookupD pd "Parent") chain) (hf : f ∈ inheritedFields) :
    (addPage heap chain.length pagesObj (.ind id)).map (fun d => lookupD d f)
      = .ok (orElseO (lookupD pd f) (chainLookup chain f)) := by
  obtain ⟨pd', hok, hlook⟩ := walkInherit_chain heap chain _ hch pd
  have hfp : f ≠ "Parent" := by fin_cases hf <;> decide
  simp [addPage, hid, hty, hok, Except.map, lookupD_setD_ne _ _ _ _ hfp, hlook f hf]

/-- Witness for C3 at a one-ancestor chain: the page omits MediaBox and
inherits the ancestor's value. -/
theorem page_inheritance_witness :
    (addPage
        (fun n => if n == 1 then .dict [("Type", .name "Page"), ("Parent", .ind 2)]
                  else if n == 2 then .dict [("MediaBox", .int 7)] else .null)
        1 (.ind 0) (.ind 1)).map (fun d => lookupD d "MediaBox")
      = .ok (orElseO (lookupD [("Type", .name "Page"), ("Parent", .ind 2)] "MediaBox")
              (chainLookup [[("MediaBox", .int 7)]] "MediaBox")) :=
  page_inheritance _ 1 [("Type", .name "Page"), ("Parent", .ind 2)] [[("MediaBox", .int 7)]]
    (.ind 0) "MediaBox" rfl rfl
    (ParentChain.step 2 _ [] rfl (ParentChain.stop _ rfl)) (by decide)

/-- C5 counterexample: a page whose `Parent` entry is present but is an
integer (not an indirect object).  `AddPage` succeeds — the inheritance
walk just stops — rather than failing with an invalid-parent error as
the claim states. -/
theorem addpage_nonindirect_parent_cex :
    addPage (fun n => if n == 1 then .dict [("Type", .name "Page"), ("Parent", .int 7)]
               else .null)
        3 (.ind 99) (.ind 1)
      = .ok [("Type", .name "Page"), ("Parent", .ind 99)] := rfl

/-- C5 amended: in the `AddPage` ancestor walk, a hop fails with the
`Invalid Parent object` error exactly when the `Parent` entry is an
indirect object whose contained object is not a dictionary; a `Parent`
entry that is present but not an indirect object silently ends the walk
and `AddPage` succeeds. -/
theorem addpage_parent_errors (heap : Nat → PObj) (id pid : Nat) (pd : PDict)
    (pagesObj v : PObj) (fuel : Nat)
    (hid : heap id = .dict pd) (hty : lookupD pd "Type" = some (.name "Page")) :
    (lookupD pd "Parent" = some (.ind pid) → (heap pid).isDict = false →
        addPage heap (fuel + 1) pagesObj (.ind id) = .error "Invalid Parent object")
  ∧ (lookupD pd "Parent" = some v → v.isInd = false →
        addPage heap fuel pagesObj (.ind id) = .ok (setD pd "Parent" pagesObj)) := by
  constructor
  · intro hpar hnd
    have hwalk : walkInherit heap (fuel + 1) pd (lookupD pd "Parent")
        = .error "Invalid Parent object" := by
      rw [hpar]
      cases hh : heap pid with
      | dict dd => simp [hh, PObj.isDict] at hnd
      | _ => ?_
      all_goals (conv_lhs => rw [walkInherit.eq_def])
      all_goals simp [hh]
    simp [addPage, hid, hty, hwalk, Except.map]
  · intro hpar hv
    have hwalk : walkInherit heap fuel pd (lookupD pd "Parent") = .ok pd := by
      rw [hpar]
      cases v with
      | ind i => simp [PObj.isInd] at hv
      | _ => ?_
      all_goals (conv_lhs => rw [walkInherit.eq_def])
    simp [addPage, hid, hty, hwalk, Except.map]

/-- Witness for C5 amended: a parent hop that is an indirect object
containing an integer makes `AddPage` fail with the invalid-parent
error. -/
theorem addpage_parent_errors_witness :
    addPage (fun n => if n == 1 then .dict [("Type", .name "Page"), ("Parent", .ind 2)]
               else if n == 2 then .int 0 else .null)
        4 (.ind 99) (.ind 1)
      = .error "Invalid Parent object" :=
  (addpage_parent_errors
      (fun n => if n == 1 then .dict [("Type", .name "Page"), ("Parent", .ind 2)]
                else if n == 2 then .int 0 else .null)
      1 2 [("Type", .name "Page"), ("Parent", .ind 2)] (.ind 99) (.null) 3 rfl rfl).1 rfl rfl

lemma eiScan_state0 (P : List Nat) : ∀ (t skip out : List Nat),
    (∀ b ∈ P, isWSb b = false) →
    eiScan (P ++ t) 0 skip out = eiScan t 0 skip (out ++ P) := by
  induction P with
  | nil => intro t skip out _; simp
  | cons b rest ih =>
    intro t skip out hP
    have hb : isWSb b = false := hP b (List.mem_cons_self b rest)
    have step : eiScan (b :: (rest ++ t)) 0 skip out = eiScan (rest ++ t) 0 skip (out ++ [b]) := by
      simp [eiScan, hb]
    calc eiScan ((b :: rest) ++ t) 0 skip out
        = eiScan (rest ++ t) 0 skip (out ++ [b]) := step
      _ = eiScan t 0 skip ((out ++ [b]) ++ rest) :=
          ih t skip (out ++ [b]) (fun x hx => hP x (List.mem_cons_of_mem b hx))
      _ = eiScan t 0 skip (out ++ (b :: rest)) := by simp

lemma eiScan_terminator (w1 w2 : Nat) (R skip out : List Nat)
    (h1 : isWSb w1 = true) (h2 : isWSb w2 = true) :
    eiScan (w1 :: 69 :: 73 :: w2 :: R) 0 skip out = .ok (out, R) := by
  simp [eiScan, h1, h2]

lemma no_terminator_in_payload (P : List Nat) (hP : ∀ b ∈ P, isWSb b = false)
    (X : List Nat) (j : Nat) (hj : j < P.length) : isEITermAt (P ++ X) j = false := by
  have hget : (P ++ X).getD j 0 = P.getD j 0 := by
    rw [List.getD_eq_getElem?_getD, List.getD_eq_getElem?_getD,
      List.getElem?_append_left hj]
  have hmem : P.getD j 0 ∈ P := by
    rw [List.getD_eq_getElem P 0 hj]
    exact List.getElem_mem hj
  have hws : isWSb ((P ++ X).getD j 0) = false := by rw [hget]; exact hP _ hmem
  unfold isEITermAt
  rw [hws]
  simp

/-- C2 counterexample: on the input `A SP LF E I SP` the first
`<ws>EI<ws>` occurrence starts at index 2 (`LF E I SP`), so the claim
says the payload is the two bytes `A SP`; the scanner instead returns
`A SP LF` — the state-1 whitespace step flushed the candidate buffer
(including the whitespace that opens the terminator) into the payload. -/
theorem inline_scan_payload_cex :
    isEITermAt [65, 32, 10, 69, 73, 32] 2 = true
  ∧ isEITermAt [65, 32, 10, 69, 73, 32] 0 = false
  ∧ isEITermAt [65, 32, 10, 69, 73, 32] 1 = false
  ∧ eiScan [65, 32, 10, 69, 73, 32] 0 [] [] = .ok ([65, 32, 10], [])
  ∧ [65, 32, 10] ≠ List.take 2 [65, 32, 10, 69, 73, 32] :=
  ⟨rfl, rfl, rfl, rfl, by decide⟩

/-- C2 amended: for a payload containing no whitespace byte, followed by
`<ws>EI<ws>` and arbitrary trailing bytes, the scanner terminates at that
occurrence — which is the first one — and returns exactly the payload;
and in state 1 an additional whitespace byte does not silently extend the
candidate: it flushes the entire candidate buffer into the payload
(without resetting the buffer) and stays in state 1. -/
theorem inline_scan_whitespace_free (P R : List Nat) (w1 w2 c : Nat) (skip out : List Nat)
    (hP : ∀ b ∈ P, isWSb b = false) (h1 : isWSb w1 = true) (h2 : isWSb w2 = true)
    (hc : isWSb c = true) (hcE : c ≠ 69) :
    eiScan (P ++ w1 :: 69 :: 73 :: w2 :: R) 0 [] [] = .ok (P, R)
  ∧ (∀ j, j < P.length → isEITermAt (P ++ w1 :: 69 :: 73 :: w2 :: R) j = false)
  ∧ eiScan (c :: R) 1 skip out = eiScan R 1 (skip ++ [c]) (out ++ (skip ++ [c])) := by
  refine ⟨?_, ?_, ?_⟩
  · rw [eiScan_state0 P _ [] [] hP, eiScan_terminator w1 w2 R [] ([] ++ P) h1 h2]
    simp
  · intro j hj
    exact no_terminator_in_payload P hP _ j hj
  · have hce : (c == 69) = false := by simpa using hcE
    simp [eiScan, hce, hc]

/-- Witness for C2 amended at the payload `A B`. -/
theorem inline_scan_whitespace_free_witness :
    eiScan ([65, 66] ++ 32 :: 69 :: 73 :: 32 :: [99]) 0 [] [] = .ok ([65, 66], [99]) :=
  (inline_scan_whitespace_free [65, 66] [99] 32 32 32 [] [] (by decide) rfl rfl rfl
    (by decide)).1

/-- C9: `ExtractText` returns `Hello` for a `Tj` stream, `Hello` for a
`TJ` array stream (concatenating string elements and ignoring numeric
kerning entries), and `A`, newline, `B` for a stream with a `T*` line
break between two `Tj` shows. -/
theorem extract_text_examples :
    extractTextFromStream "BT (Hello) Tj ET" = .ok "Hello"
  ∧ extractTextFromStream "BT [(Hel)-20(lo)] TJ ET" = .ok "Hello"
  ∧ extractTextFromStream "BT (A) Tj T* (B) Tj ET" = .ok "A\nB" :=
  ⟨rfl, rfl, rfl⟩

/-- C10: `PdfWriter.Encrypt` always configures the handler with V=2,
R=3, a 128-bit key, and the single crypt filter `Default` with method
`V2` (RC4) — never `AESV2` — and a nil options argument yields the
permission bits P = -1. -/
theorem encrypt_fixed_params (perms : Option Int) :
    (encryptConfig perms).V = 2
  ∧ (encryptConfig perms).R = 3
  ∧ (encryptConfig perms).keyLength = 128
  ∧ (encryptConfig perms).filters = [("Default", { cfm := "V2", filterLength := 128 })]
  ∧ ((encryptConfig perms).filters.all (fun p => !(p.2.cfm == "AESV2"))) = true
  ∧ (encryptConfig none).P = -1 :=
  ⟨rfl, rfl, rfl, rfl, rfl, rfl⟩

lemma object_numbering_from (objs : List PObj) (h : ∀ o ∈ objs, o.isIndOrStream = true) :
    ∀ idx : Nat, updateObjectNumbers objs idx
      = (List.range' (idx + 1) objs.length).map (fun n => some (n, 0)) := by
  induction objs with
  | nil => intro idx; rfl
  | cons o rest ih =>
    intro idx
    have ho : o.isIndOrStream = true := h o (List.mem_cons_self o rest)
    have hrest : ∀ x ∈ rest, x.isIndOrStream = true :=
      fun x hx => h x (List.mem_cons_of_mem o hx)
    cases o with
    | ind i =>
      show some (idx + 1, 0) :: updateObjectNumbers rest (idx + 1) = _
      rw [ih hrest (idx + 1)]
      rfl
    | stream i =>
      show some (idx + 1, 0) :: updateObjectNumbers rest (idx + 1) = _
      rw [ih hrest (idx + 1)]
      rfl
    | _ => ?_
    all_goals simp [PObj.isIndOrStream] at ho

/-- C7: object numbers are assigned by `updateObjectNumbers` (called once
at `Write` time) densely and sequentially from 1 in graph insertion
order, with every generation number written as 0. -/
theorem object_numbering (objs : List PObj) (h : ∀ o ∈ objs, o.isIndOrStream = true) :
    updateObjectNumbers objs 0 = (List.range' 1 objs.length).map (fun n => some (n, 0)) :=
  object_numbering_from objs h 0

/-- Witness for C7 on a two-object graph. -/
theorem object_numbering_witness :
    updateObjectNumbers [PObj.ind 4, PObj.stream 9] 0
      = (List.range' 1 2).map (fun n => some (n, 0)) :=
  object_numbering [PObj.ind 4, PObj.stream 9] (by decide)

lemma sameObj_self {o : PObj} (h : o.isIndOrStream = true) : PObj.sameObj o o = true := by
  cases o <;> simp [PObj.isIndOrStream] at h <;> simp [PObj.sameObj]

lemma sameObj_eq {x eo : PObj} (h : eo.isIndOrStream = true)
    (hx : PObj.sameObj x eo = true) : x = eo := by
  cases eo <;> simp [PObj.isIndOrStream] at h <;>
    cases x <;> simp [PObj.sameObj] at hx <;> rw [hx]

lemma mem_addObject_self {g : List PObj} {o : PObj} (h : o.isIndOrStream = true) :
    o ∈ addObject g o := by
  unfold addObject
  by_cases hm : graphMem g o
  · rcases (by simpa [graphMem, List.any_eq_true] using hm :
        ∃ x ∈ g, PObj.sameObj x o = true) with ⟨x, hxg, hxs⟩
    simp only [hm, if_true]
    rwa [← sameObj_eq h hxs]
  · simp [hm]

/-- C8: in the `Write` loop of an encrypted document, the per-object
encryption runs on every graph object except the encryption dictionary's
own backing indirect object (which `Encrypt` registered in the graph),
and never on that object. -/
theorem encrypt_skips_encrypt_dict (st : WState) (eo : PObj) (heo : eo.isIndOrStream = true) :
    (eo, false) ∈ encryptStep eo (addObject st.objects eo)
  ∧ (∀ p ∈ encryptStep eo (addObject st.objects eo), PObj.sameObj p.1 eo = false → p.2 = true)
  ∧ (∀ p ∈ encryptStep eo (addObject st.objects eo), p.2 = false → p.1 = eo) := by
  refine ⟨?_, ?_, ?_⟩
  · have : (eo, !PObj.sameObj eo eo) = (eo, false) := by rw [sameObj_self heo]; rfl
    rw [← this]
    exact List.mem_map_of_mem _ (mem_addObject_self heo)
  · intro p hp hps
    rcases List.mem_map.mp hp with ⟨x, hx, hxp⟩
    rw [← hxp] at hps ⊢
    simp at hps ⊢
    simp [hps]
  · intro p hp hpf
    rcases List.mem_map.mp hp with ⟨x, hx, hxp⟩
    rw [← hxp] at hpf ⊢
    simp at hpf ⊢
    exact sameObj_eq heo hpf

/-- Witness for C8 on a one-object graph plus the encryption object. -/
theorem encrypt_skips_encrypt_dict_witness :
    (PObj.ind 3, false) ∈ encryptStep (.ind 3) (addObject [PObj.ind 1] (.ind 3)) :=
  (encrypt_skips_encrypt_dict ⟨[PObj.ind 1], []⟩ (.ind 3) rfl).1

/-- C4: during the `addObjects` traversal, a `Parent` entry whose
referent indirect object is absent from the graph is recorded in the
pending map without error; at `Write` time a still-unregistered pending
referent is replaced by null in its dictionary by the total (non-raising)
pending check; a `Parent` entry that is a bare reference is a hard error
at traversal time. -/
theorem parent_missing_vs_reference (heap : Nat → PObj) (st : WState) (pid r : Nat)
    (fuel : Nat) (habs : graphMem st.objects (.ind pid) = false) :
    addObjects heap (fuel + 3) st (.dict [("Parent", .ind pid)])
      = .ok { st with pending := st.pending ++ [(.ind pid, [("Parent", .ind pid)])] }
  ∧ resolvePendingEntry st.objects (.ind pid, [("Parent", .ind pid)]) = [("Parent", .null)]
  ∧ addObjects heap (fuel + 3) st (.dict [("Parent", .ref r)])
      = .error "Parent is a reference object - Cannot be in writer (needs to be resolved)" := by
  refine ⟨?_, ?_, ?_⟩
  · simp [addObjects, run, parentStep, habs]
  · simp [resolvePendingEntry, habs, nullifyFirstMatch, PObj.sameObj]
  · simp [addObjects, run, parentStep]

/-- Witness for C4 starting from the empty writer state. -/
theorem parent_missing_vs_reference_witness :
    addObjects (fun _ => .null) 3 ⟨[], []⟩ (.dict [("Parent", .ind 7)])
      = .ok ⟨[], [(.ind 7, [("Parent", .ind 7)])]⟩ :=
  (parent_missing_vs_reference (fun _ => .null) ⟨[], []⟩ 7 0 0 rfl).1

lemma graphNodup_append {g : List PObj} {o : PObj} (hnd : graphNodup g)
    (hm : graphMem g o = false) : graphNodup (g ++ [o]) := by
  rw [graphNodup, List.pairwise_append]
  refine ⟨hnd, List.pairwise_singleton _ _, ?_⟩
  intro a ha b hb
  have hb' : b = o := by simpa using hb
  subst hb'
  simp [graphMem] at hm
  exact hm a ha

lemma parentStep_objects {st : WState} {d : PDict} {v : PObj} {st2 : WState}
    (h : parentStep st d v = .ok st2) : st2.objects = st.objects := by
  cases v <;> simp [parentStep] at h <;> rw [← h] <;> (split <;> rfl)

lemma run_preserves (heap : Nat → PObj) :
    ∀ (fuel : Nat) (st : WState) (job : Job) (st' : WState),
      run heap fuel st job = .ok st' →
      (graphNodup st.objects → graphNodup st'.objects) ∧ st.objects <+: st'.objects := by
  intro fuel
  induction fuel with
  | zero => intro st job st' h; simp [run] at h
  | succ fuel ih =>
    intro st job st' h
    cases job with
    | one o =>
      cases o with
      | ind oid =>
        cases hm : graphMem st.objects (.ind oid) with
        | true =>
          simp [run, hm] at h
          subst h
          exact ⟨fun x => x, List.prefix_refl _⟩
        | false =>
          simp only [run, hm, Bool.false_eq_true, if_false] at h
          obtain ⟨n1, p1⟩ := ih _ _ _ h
          refine ⟨fun hnd => n1 (graphNodup_append hnd hm), ?_⟩
          exact (show st.objects <+: st.objects ++ [PObj.ind oid] from ⟨_, rfl⟩).trans p1
      | stream sid =>
        cases hm : graphMem st.objects (.stream sid) with
        | true =>
          simp [run, hm] at h
          subst h
          exact ⟨fun x => x, List.prefix_refl _⟩
        | false =>
          simp only [run, hm, Bool.false_eq_true, if_false] at h
          obtain ⟨n1, p1⟩ := ih _ _ _ h
          refine ⟨fun hnd => n1 (graphNodup_append hnd hm), ?_⟩
          exact (show st.objects <+: st.objects ++ [PObj.stream sid] from ⟨_, rfl⟩).trans p1
      | dict d => exact ih _ _ _ (by simpa [run] using h)
      | array xs => exact ih _ _ _ (by simpa [run] using h)
      | ref n => simp [run] at h
      | null => ?_
      | bool b => ?_
      | int n => ?_
      | real r => ?_
      | str s => ?_
      | name s => ?_
      all_goals
        simp [run] at h
        subst h
        exact ⟨fun x => x, List.prefix_refl _⟩
    | arr xs =>
      cases xs with
      | nil =>
        simp [run] at h
        subst h
        exact ⟨fun x => x, List.prefix_refl _⟩
      | cons x rest =>
        cases hx : run heap fuel st (.one x) with
        | error e => simp [run, hx] at h
        | ok st2 =>
          simp only [run, hx] at h
          obtain ⟨n1, p1⟩ := ih _ _ _ hx
          obtain ⟨n2, p2⟩ := ih _ _ _ h
          exact ⟨fun hnd => n2 (n1 hnd), p1.trans p2⟩
    | entries d rest =>
      cases rest with
      | nil =>
        simp [run] at h
        subst h
        exact ⟨fun x => x, List.prefix_refl _⟩
      | cons kv rest' =>
        obtain ⟨k, v⟩ := kv
        by_cases hk : k = "Parent"
        · subst hk
          cases hps : parentStep st d v with
          | error e => simp [run, hps] at h
          | ok st2 =>
            simp only [run, hps] at h
            simp only [reduceIte] at h
            obtain ⟨n2, p2⟩ := ih _ _ _ h
            have hobj := parentStep_objects hps
            rw [hobj] at n2 p2
            exact ⟨n2, p2⟩
        · cases hv : run heap fuel st (.one v) with
          | error e => simp [run, hk, hv] at h
          | ok st2 =>
            simp only [run, hk, if_false] at h
            simp only [hv] at h
            obtain ⟨n1, p1⟩ := ih _ _ _ hv
            obtain ⟨n2, p2⟩ := ih _ _ _ h
            exact ⟨fun hnd => n2 (n1 hnd), p1.trans p2⟩

/-- C6: the graph never holds the same object identity twice — adding an
already-registered object via `addObject` is a no-op, one `addObject`
grows the graph by at most one, registration preserves pairwise-distinct
identities and extends the graph (preserving insertion order) — and the
whole `addObjects` traversal preserves distinctness and insertion order
as well. -/
theorem graph_dedup (g : List PObj) (o : PObj) (heap : Nat → PObj) (fuel : Nat)
    (st st' : WState) (job : Job) (ho : o.isIndOrStream = true) (hg : graphNodup g)
    (hok : run heap fuel st job = .ok st') (hnd : graphNodup st.objects) :
    addObject (addObject g o) o = addObject g o
  ∧ (addObject g o).length ≤ g.length + 1
  ∧ graphNodup (addObject g o)
  ∧ g <+: addObject g o
  ∧ graphNodup st'.objects
  ∧ st.objects <+: st'.objects := by
  obtain ⟨hn, hp⟩ := run_preserves heap fuel st job st' hok
  refine ⟨?_, ?_, ?_, ?_, hn hnd, hp⟩
  · cases hm : graphMem g o with
    | true => simp [addObject, hm]
    | false =>
      have hmem : graphMem (g ++ [o]) o = true := by
        simp [graphMem, List.any_eq_true]
        exact Or.inr (sameObj_self ho)
      simp [addObject, hm, hmem]
  · cases hm : graphMem g o with
    | true => simp [addObject, hm]
    | false => simp [addObject, hm]
  · cases hm : graphMem g o with
    | true => simpa [addObject, hm] using hg
    | false =>
      rw [addObject, hm]
      simpa using graphNodup_append hg hm
  · cases hm : graphMem g o with
    | true => simp [addObject, hm]
    | false =>
      rw [addObject, hm]
      simp only [Bool.false_eq_true, if_false]
      exact ⟨[o], rfl⟩

/-- Witness for C6: the idempotence conjunct at a concrete graph and a
concrete successful traversal. -/
theorem graph_dedup_witness :
    addObject (addObject [PObj.ind 1] (.ind 2)) (.ind 2) = addObject [PObj.ind 1] (.ind 2) :=
  (graph_dedup [PObj.ind 1] (.ind 2) (fun _ => .null) 1 ⟨[], []⟩ ⟨[], []⟩ (.one .null)
    rfl (by simp [graphNodup]) rfl (by simp [graphNodup])).1

lemma offsetsFrom_length (bs : List (List Nat)) :
    ∀ base : Nat, (offsetsFrom base bs).length = bs.length := by
  induction bs with
  | nil => intro base; rfl
  | cons b rest ih => intro base; simp [offsetsFrom, ih]

lemma blocksFrom_length (ser : PObj → List Nat) (raw : Nat → List Nat) (objs : List PObj) :
    ∀ num : Nat, (blocksFrom ser raw num objs).length = objs.length := by
  induction objs with
  | nil => intro num; rfl
  | cons o rest ih => intro num; simp [blocksFrom, ih]

lemma blocks_offsets (ser : PObj → List Nat) (raw : Nat → List Nat) (objs : List PObj) :
    ∀ (i num base : Nat), i < objs.length → (∀ o ∈ objs, o.isIndOrStream = true) →
    ∃ pre tail, (blocksFrom ser raw num objs).flatten = pre ++ (objMarker (num + i) ++ tail)
      ∧ (offsetsFrom base (blocksFrom ser raw num objs)).getD i 0 = base + pre.length := by
  induction objs with
  | nil => intro i num base hi _; exact absurd hi (by simp)
  | cons o rest ih =>
    intro i num base hi hall
    cases i with
    | zero =>
      have ho : o.isIndOrStream = true := hall o (List.mem_cons_self o rest)
      cases o with
      | ind oid =>
        refine ⟨[], (ascii "\n" ++ ser (.ind oid) ++ ascii "\nendobj\n")
            ++ (blocksFrom ser raw (num + 1) rest).flatten, ?_, ?_⟩
        · simp [blocksFrom, objBlock, List.append_assoc]
        · simp [blocksFrom, offsetsFrom]
      | stream sid =>
        refine ⟨[], (ascii "\n" ++ ser (.stream sid) ++ ascii "\nstream\n" ++ raw sid
              ++ ascii "\nendstream\nendobj\n")
            ++ (blocksFrom ser raw (num + 1) rest).flatten, ?_, ?_⟩
        · simp [blocksFrom, objBlock, List.append_assoc]
        · simp [blocksFrom, offsetsFrom]
      | _ => ?_
      all_goals simp [PObj.isIndOrStream] at ho
    | succ i' =>
      have hrest : ∀ x ∈ rest, x.isIndOrStream = true :=
        fun x hx => hall x (List.mem_cons_of_mem o hx)
      obtain ⟨pre', tail', h1, h2⟩ :=
        ih i' (num + 1) (base + (objBlock ser raw num o).length) (by simpa using hi) hrest
      refine ⟨objBlock ser raw num o ++ pre', tail', ?_, ?_⟩
      · have harith : num + 1 + i' = num + (i' + 1) := by omega
        rw [← harith]
        simp [blocksFrom, h1, List.append_assoc]
      · have hstep : (offsetsFrom base (blocksFrom ser raw num (o :: rest))).getD (i' + 1) 0
            = (offsetsFrom (base + (objBlock ser raw num o).length)
                (blocksFrom ser raw (num + 1) rest)).getD i' 0 := by
          simp [blocksFrom, offsetsFrom]
        rw [hstep, h2, List.length_append]
        omega

/-- C1: for an unencrypted document whose graph holds N indirect/stream
objects, the trailer `Size` entry is N+1, the xref table has exactly N+1
entry lines (the free entry for object 0 plus one `n` entry per object),
and each recorded offset is the byte position in the emitted stream at
which that object's `N 0 obj` marker begins. -/
theorem write_xref_layout (ser : PObj → List Nat) (raw : Nat → List Nat)
    (serD : PDict → List Nat) (major minor : Nat) (root info : PObj) (objs : List PObj)
    (hall : ∀ o ∈ objs, o.isIndOrStream = true) :
    lookupD (trailerDict root info objs.length) "Size" = some (.int ((objs.length : Int) + 1))
  ∧ (xrefLines (offsetsFrom (pdfHeader major minor).length (blocksFrom ser raw 1 objs))).length
      = objs.length + 1
  ∧ ∀ i, i < objs.length →
      objMarker (i + 1) <+:
        ((pdfWriteUnencrypted ser raw serD major minor root info objs).drop
          ((offsetsFrom (pdfHeader major minor).length (blocksFrom ser raw 1 objs)).getD i 0)) := by
  refine ⟨rfl, ?_, ?_⟩
  · simp [xrefLines, offsetsFrom_length, blocksFrom_length]
  · intro i hi
    obtain ⟨pre, tail, h1, h2⟩ :=
      blocks_offsets ser raw objs i 1 (pdfHeader major minor).length hi hall
    have hio : 1 + i = i + 1 := by omega
    rw [hio] at h1
    rw [h2]
    unfold pdfWriteUnencrypted
    rw [h1]
    have key : ∀ suf : List Nat, objMarker (i + 1) <+:
        List.drop ((pdfHeader major minor).length + pre.length)
          (pdfHeader major minor ++ ((pre ++ (objMarker (i + 1) ++ tail)) ++ suf)) := by
      intro suf
      have hshape : pdfHeader major minor ++ ((pre ++ (objMarker (i + 1) ++ tail)) ++ suf)
          = (pdfHeader major minor ++ pre) ++ (objMarker (i + 1) ++ (tail ++ suf)) := by
        simp [List.append_assoc]
      rw [hshape, ← List.length_append (pdfHeader major minor) pre, List.drop_left]
      exact ⟨_, rfl⟩
    exact key _

/-- Witness for C1 on a concrete two-object graph, checking the offset
of the second object. -/
theorem write_xref_layout_witness :
    objMarker 2 <+:
      ((pdfWriteUnencrypted (fun _ => ascii "B") (fun _ => [7]) (fun _ => []) 1 3
          (.ind 9) (.ind 8) [.ind 5, .stream 6]).drop
        ((offsetsFrom (pdfHeader 1 3).length
            (blocksFrom (fun _ => ascii "B") (fun _ => [7]) 1 [.ind 5, .stream 6])).getD 1 0)) :=
  (write_xref_layout (fun _ => ascii "B") (fun _ => [7]) (fun _ => []) 1 3 (.ind 9) (.ind 8)
    [.ind 5, .stream 6] (by decide)).2.2 1 (by decide)
